import Mathlib

/-!
Shallow embedding of `custom-bitarray` (src/bitarray/core.py and
src/bitarray/services.py): a `BitArray` class storing a list of booleans,
constructed from 0/1 strings or lists of booleans / 0-1 integers, with
bitwise operations and a small two-operand expression evaluator
(`BitArray.execute`).

Python dynamic values are modelled by the inductive `PyVal`; raising a
`TypeError` / `ValueError` is modelled by `Except PyErr`.
-/

/-- Model of the Python runtime values the library can receive:
strings, lists, ints, bools, None, dicts and `BitArray` instances. -/
inductive PyVal where
  | str (s : List Char)
  | list (l : List PyVal)
  | int (n : Int)
  | bool (b : Bool)
  | none
  | dict (entries : List (PyVal × PyVal))
  | bitarr (bits : List Bool)

/-- Model of the Python exceptions raised by the library. -/
inductive PyErr where
  | typeError (msg : String)
  | valueError (msg : String)
deriving DecidableEq

/-- Python truthiness (`bool(v)`) for the modelled values; a `BitArray`
is truthy by its `__len__`. -/
def PyVal.py_bool : PyVal → Bool
  | .str s => !s.isEmpty
  | .list l => !l.isEmpty
  | .int n => n != 0
  | .bool b => b
  | .none => false
  | .dict entries => !entries.isEmpty
  | .bitarr bits => !bits.isEmpty

/-- Whether the value is a Python `str`. -/
def PyVal.isStr : PyVal → Bool
  | .str _ => true
  | _ => false

/-- Whether the value is a Python `list`. -/
def PyVal.isList : PyVal → Bool
  | .list _ => true
  | _ => false

/-- Whether the value is a `BitArray` instance. -/
def PyVal.isBitArr : PyVal → Bool
  | .bitarr _ => true
  | _ => false

/-- services.is_bool: `isinstance(item, bool)`. -/
def is_bool : PyVal → Bool
  | .bool _ => true
  | _ => false

/-- services.is_int_0_or_1: `type(item) == int and item in [0, 1]`
(note: an exact type check, so Python booleans are not ints here). -/
def is_int_0_or_1 : PyVal → Bool
  | .int n => n == 0 || n == 1
  | _ => false

/-- services.is_char_0_or_1 restricted to single characters (the only
way core.py calls it): membership of the character in "01". -/
def is_char_0_or_1 (c : Char) : Bool :=
  c == '0' || c == '1'

/-- The boolean a valid bit character denotes: `bool(int(c))`. -/
def charBit (c : Char) : Bool := c == '1'

/-- BitArray: stores bit values as a list of booleans. -/
structure BitArray where
  bits : List Bool
deriving DecidableEq

namespace BitArray

/-- BitArray.parse_str: every character must be '0' or '1', else
`ValueError`; result is `list(map(bool, map(int, string)))`. -/
def parse_str (string : List Char) : Except PyErr (List Bool) :=
  if string.all is_char_0_or_1 then
    .ok (string.map charBit)
  else
    .error (.valueError "Initializer must consist of 0 and 1 only")

/-- BitArray.parse_list: every element must be a boolean or an integer
0/1, else `ValueError`; result is `list(map(bool, lst))`. -/
def parse_list (lst : List PyVal) : Except PyErr (List Bool) :=
  if lst.all (fun bit => is_bool bit || is_int_0_or_1 bit) then
    .ok (lst.map PyVal.py_bool)
  else
    .error (.valueError "The list must contain digits: 0, 1 or boolean values: False, True")

/-- BitArray.try_parse: dispatch on the exact runtime type; only `str`
and `list` have parsers, everything else raises `TypeError`. -/
def try_parse (new_bits : PyVal) : Except PyErr (List Bool) :=
  match new_bits with
  | .str s => parse_str s
  | .list l => parse_list l
  | _ => .error (.typeError "Expected one of these types (list, str)")

/-- BitArray.__init__: a falsy source (None, empty string/list, but also
0, False, an empty dict, ...) yields an empty array without parsing;
otherwise the parsed bits become the contents. -/
def init (source : PyVal) : Except PyErr BitArray :=
  if source.py_bool then
    (try_parse source).map (fun bs => ⟨bs⟩)
  else
    .ok ⟨[]⟩

/-- Zero-argument constructor `BitArray()`. -/
def empty : BitArray := ⟨[]⟩

/-- BitArray.append: `self.__bits += self.try_parse(new_bits)` mutates
the receiver in place; modelled by returning the receiver's new state. -/
def append (a : BitArray) (new_bits : PyVal) : Except PyErr BitArray :=
  (try_parse new_bits).map (fun bs => ⟨a.bits ++ bs⟩)

/-- BitArray._check_support: `TypeError` when the operand is not a
BitArray, `ValueError` when the lengths differ. -/
def check_support (a : BitArray) (other : PyVal) (operation : String) : Except PyErr Unit :=
  match other with
  | .bitarr bs =>
      if a.bits.length != bs.length then
        .error (.valueError "Operands of different lengths!")
      else
        .ok ()
  | _ =>
      .error (.typeError ("BitArray does not support " ++ operation ++
        " with all types other than BitArray"))

/-- The bits of a value known to be a `BitArray` (only used behind a
successful `check_support`). -/
def PyVal.asBits : PyVal → List Bool
  | .bitarr bs => bs
  | _ => []

/-- BitArray.__invert__: element-wise logical not, a new instance. -/
def invert (a : BitArray) : BitArray := ⟨a.bits.map (fun x => !x)⟩

/-- BitArray.__or__: check support, then element-wise or over the zip. -/
def op_or (a : BitArray) (other : PyVal) : Except PyErr BitArray := do
  check_support a other "bitwise or"
  .ok ⟨List.zipWith (fun x y => x || y) a.bits (PyVal.asBits other)⟩

/-- BitArray.__and__: check support, then element-wise and over the zip. -/
def op_and (a : BitArray) (other : PyVal) : Except PyErr BitArray := do
  check_support a other "bitwise and"
  .ok ⟨List.zipWith (fun x y => x && y) a.bits (PyVal.asBits other)⟩

/-- BitArray.implies: check support, then `~self | other`. -/
def implies (a : BitArray) (other : PyVal) : Except PyErr BitArray := do
  check_support a other "bitwise implication"
  op_or (invert a) other

/-- BitArray.equals: bitwise equivalence — check support, then
element-wise `x is y` (identity of booleans, i.e. boolean equality). -/
def equals (a : BitArray) (other : PyVal) : Except PyErr BitArray := do
  check_support a other "bitwise equivalence"
  .ok ⟨List.zipWith (fun x y => x == y) a.bits (PyVal.asBits other)⟩

/-- BitArray.__eq__: False for a non-BitArray or on differing lengths,
otherwise element-wise list equality; never raises. -/
def py_eq (a : BitArray) (other : PyVal) : Bool :=
  match other with
  | .bitarr bs =>
      if a.bits.length != bs.length then false else a.bits == bs
  | _ => false

/-- The `"".join(map(str, map(int, self.bits)))` part of
BitArray.__repr__: one '0'/'1' character per element, in index order. -/
def render (a : BitArray) : List Char :=
  a.bits.map (fun b => if b then '1' else '0')

/-- BitArray.__repr__: the rendered bits inside decorating text. -/
def py_repr (a : BitArray) : String :=
  "BitArray <" ++ String.mk (render a) ++ "> object"

/-- The four operator symbols of the expression language. -/
inductive Op where
  | opAnd
  | opOr
  | opImpl
  | opEquiv
deriving DecidableEq

/-- The literal characters of an operator symbol. -/
def Op.chars : Op → List Char
  | .opAnd => ['&']
  | .opOr => ['|']
  | .opImpl => ['-', '>']
  | .opEquiv => ['=']

/-- A character matched by the regex class [01]. -/
def isBitChar (c : Char) : Bool := c == '0' || c == '1'

/-- The x_bits group of the regex `~?[01]*`: greedily take an optional
leading '~' and then the maximal run of bit characters; the remainder of
the input follows.  (Backtracking to a shorter x_bits can never help:
no operator symbol begins with '~', '0' or '1'.) -/
def splitX (s : List Char) : List Char × List Char :=
  if s.head? = some '~' then
    ('~' :: s.tail.takeWhile isBitChar, s.tail.dropWhile isBitChar)
  else
    (s.takeWhile isBitChar, s.dropWhile isBitChar)

/-- Whether a string matches `~?[01]*` in full (the y_bits group must
consume the whole remainder of the input). -/
def operandOk (s : List Char) : Bool :=
  if s.head? = some '~' then s.tail.all isBitChar else s.all isBitChar

/-- The op group `[&=|]|->`: match one operator symbol at the front. -/
def matchOp (s : List Char) : Option (Op × List Char) :=
  if s.head? = some '&' then some (.opAnd, s.tail)
  else if s.head? = some '=' then some (.opEquiv, s.tail)
  else if s.head? = some '|' then some (.opOr, s.tail)
  else if s.head? = some '-' ∧ s.tail.head? = some '>' then some (.opImpl, s.tail.tail)
  else Option.none

/-- Full match of `(?P<x_bits>~?[01]*)(?P<op>[&=|]|->)(?P<y_bits>~?[01]*)`
against the whole input, returning the three captured groups. -/
def matchExpr (s : List Char) : Option (List Char × Op × List Char) :=
  match matchOp (splitX s).2 with
  | some (op, r) => if operandOk r then some ((splitX s).1, op, r) else Option.none
  | Option.none => Option.none

/-- The local helper `to_bitarray` in execute: strip a leading '~' and
invert the rest, otherwise construct directly. -/
def to_bitarray (bits : List Char) : Except PyErr BitArray :=
  if bits.head? = some '~' then (init (.str bits.tail)).map invert
  else init (.str bits)

/-- BitArray.execute: None for a non-string or empty input; remove all
spaces (only ' '); full-match the grammar, else None; build the two
operands (applying '~'); None on differing lengths; dispatch on the
operator.  The `Except` layer records that no exception escapes. -/
def execute (expr : PyVal) : Except PyErr (Option BitArray) :=
  match expr with
  | .str s =>
    if s.isEmpty then .ok Option.none
    else
      let stripped := s.filter (fun c => c != ' ')
      match matchExpr stripped with
      | Option.none => .ok Option.none
      | some (xb, op, yb) => do
          let x ← to_bitarray xb
          let y ← to_bitarray yb
          if x.bits.length != y.bits.length then
            .ok Option.none
          else
            match op with
            | .opAnd => (op_and x (.bitarr y.bits)).map some
            | .opOr => (op_or x (.bitarr y.bits)).map some
            | .opImpl => (implies x (.bitarr y.bits)).map some
            | .opEquiv => (equals x (.bitarr y.bits)).map some
  | _ => .ok Option.none

/-- Modelled from the spec: removal of "all whitespace characters
(spaces, tabs, newlines, etc.)" from the input, the comparison point for
the evaluator's whitespace-insensitivity (the code itself removes only
' ' via `expr.replace(" ", "")`). -/
def removeAllWhitespace (s : List Char) : List Char :=
  s.filter (fun c => !c.isWhitespace)

/-! ### Helper lemmas -/

theorem isBitChar_elim {c : Char} (h : isBitChar c = true) : c = '0' ∨ c = '1' := by
  simpa [isBitChar] using h

theorem bit_ne {c : Char} (h : isBitChar c = true) {d : Char}
    (hd : isBitChar d = false) : c ≠ d := by
  intro e
  subst e
  rw [h] at hd
  exact Bool.noConfusion hd

theorem takeWhile_append_bits (a : List Char) {c : Char} (r : List Char)
    (ha : a.all isBitChar = true) (hc : isBitChar c = false) :
    (a ++ c :: r).takeWhile isBitChar = a := by
  induction a with
  | nil => simp [List.takeWhile_cons, hc]
  | cons x xs ih =>
    rw [List.all_cons, Bool.and_eq_true] at ha
    simp [List.takeWhile_cons, ha.1, ih ha.2]

theorem dropWhile_append_bits (a : List Char) {c : Char} (r : List Char)
    (ha : a.all isBitChar = true) (hc : isBitChar c = false) :
    (a ++ c :: r).dropWhile isBitChar = c :: r := by
  induction a with
  | nil => simp [List.dropWhile_cons, hc]
  | cons x xs ih =>
    rw [List.all_cons, Bool.and_eq_true] at ha
    simp [List.dropWhile_cons, ha.1, ih ha.2]

theorem splitX_bits (a : List Char) {c : Char} (r : List Char)
    (ha : a.all isBitChar = true) (hc : isBitChar c = false) (hn : c ≠ '~') :
    splitX (a ++ c :: r) = (a, c :: r) := by
  have hh : (a ++ c :: r).head? ≠ some '~' := by
    cases a with
    | nil => simp [hn]
    | cons x xs =>
      rw [List.all_cons, Bool.and_eq_true] at ha
      simp [bit_ne ha.1 (show isBitChar '~' = false by decide)]
  rw [splitX, if_neg hh, takeWhile_append_bits a r ha hc,
    dropWhile_append_bits a r ha hc]

theorem splitX_tilde (a : List Char) {c : Char} (r : List Char)
    (ha : a.all isBitChar = true) (hc : isBitChar c = false) :
    splitX ('~' :: (a ++ c :: r)) = ('~' :: a, c :: r) := by
  rw [splitX, if_pos (by simp)]
  simp [takeWhile_append_bits a r ha hc, dropWhile_append_bits a r ha hc]

theorem operandOk_bits (b : List Char) (hb : b.all isBitChar = true) :
    operandOk b = true := by
  have hh : b.head? ≠ some '~' := by
    cases b with
    | nil => simp
    | cons x xs =>
      rw [List.all_cons, Bool.and_eq_true] at hb
      simp [bit_ne hb.1 (show isBitChar '~' = false by decide)]
  rw [operandOk, if_neg hh]
  exact hb

theorem operandOk_tilde (b : List Char) (hb : b.all isBitChar = true) :
    operandOk ('~' :: b) = true := by
  rw [operandOk, if_pos (by simp)]
  exact hb

theorem matchOp_chars (op : Op) (r : List Char) :
    matchOp (op.chars ++ r) = some (op, r) := by
  cases op <;> simp [matchOp, Op.chars]

theorem opChars_head_not_bit (op : Op) :
    ∃ c r0, op.chars = c :: r0 ∧ isBitChar c = false ∧ c ≠ '~' ∧
      (c :: r0).all (fun d => d != ' ') = true := by
  cases op
  · exact ⟨'&', [], rfl, by decide, by decide, by decide⟩
  · exact ⟨'|', [], rfl, by decide, by decide, by decide⟩
  · exact ⟨'-', ['>'], rfl, by decide, by decide, by decide⟩
  · exact ⟨'=', [], rfl, by decide, by decide, by decide⟩

theorem matchExpr_mk (n1 n2 : Bool) (a b : List Char) (op : Op)
    (ha : a.all isBitChar = true) (hb : b.all isBitChar = true) :
    matchExpr ((cond n1 ['~'] [] ++ a) ++ (op.chars ++ (cond n2 ['~'] [] ++ b)))
      = some (cond n1 ['~'] [] ++ a, op, cond n2 ['~'] [] ++ b) := by
  obtain ⟨c, r0, hchars, hcbit, hctilde, -⟩ := opChars_head_not_bit op
  have hy : operandOk (cond n2 ['~'] [] ++ b) = true := by
    cases n2
    · simpa using operandOk_bits b hb
    · simpa using operandOk_tilde b hb
  have hsplit : splitX ((cond n1 ['~'] [] ++ a) ++ (op.chars ++ (cond n2 ['~'] [] ++ b)))
      = (cond n1 ['~'] [] ++ a, op.chars ++ (cond n2 ['~'] [] ++ b)) := by
    cases n1
    · simp only [cond, List.nil_append, hchars, List.cons_append]
      exact splitX_bits a _ ha hcbit hctilde
    · simp only [cond, List.singleton_append, List.cons_append, hchars]
      exact splitX_tilde a _ ha hcbit
  rw [matchExpr, hsplit]
  simp only [matchOp_chars, hy, if_true]

theorem init_str_ok (s : List Char) (h : s.all isBitChar = true) :
    init (.str s) = .ok ⟨s.map charBit⟩ := by
  cases s with
  | nil => rfl
  | cons c cs =>
    rw [init, if_pos (by simp [PyVal.py_bool])]
    have h2 : (c :: cs).all is_char_0_or_1 = true := h
    simp only [try_parse, parse_str, h2, if_true]
    rfl

theorem to_bitarray_op (n : Bool) (a : List Char) (ha : a.all isBitChar = true) :
    to_bitarray (cond n ['~'] [] ++ a)
      = .ok (cond n (invert ⟨a.map charBit⟩) ⟨a.map charBit⟩) := by
  cases n
  · have hh : (([] : List Char) ++ a).head? ≠ some '~' := by
      cases a with
      | nil => simp
      | cons x xs =>
        rw [List.all_cons, Bool.and_eq_true] at ha
        simp [bit_ne ha.1 (show isBitChar '~' = false by decide)]
    simp only [cond, List.nil_append] at hh ⊢
    rw [to_bitarray, if_neg hh]
    exact init_str_ok a ha
  · simp only [cond, List.singleton_append]
    rw [to_bitarray, if_pos (by simp)]
    simp only [List.tail_cons, init_str_ok a ha]
    rfl

theorem invert_invert (a : BitArray) : invert (invert a) = a := by
  simp [invert, List.map_map, Function.comp_def]

theorem check_support_ok (a : BitArray) (ys : List Bool) (opname : String)
    (h : a.bits.length = ys.length) :
    check_support a (.bitarr ys) opname = .ok () := by
  simp [check_support, h]

theorem check_support_len_err (a : BitArray) (ys : List Bool) (opname : String)
    (h : a.bits.length ≠ ys.length) :
    check_support a (.bitarr ys) opname
      = .error (.valueError "Operands of different lengths!") := by
  simp [check_support, h]

theorem op_or_ok (xs ys : List Bool) (h : xs.length = ys.length) :
    op_or ⟨xs⟩ (.bitarr ys) = .ok ⟨List.zipWith (fun x y => x || y) xs ys⟩ := by
  rw [op_or, check_support_ok ⟨xs⟩ ys _ h]
  rfl

theorem op_and_ok (xs ys : List Bool) (h : xs.length = ys.length) :
    op_and ⟨xs⟩ (.bitarr ys) = .ok ⟨List.zipWith (fun x y => x && y) xs ys⟩ := by
  rw [op_and, check_support_ok ⟨xs⟩ ys _ h]
  rfl

theorem equals_ok (xs ys : List Bool) (h : xs.length = ys.length) :
    equals ⟨xs⟩ (.bitarr ys) = .ok ⟨List.zipWith (fun x y => x == y) xs ys⟩ := by
  rw [equals, check_support_ok ⟨xs⟩ ys _ h]
  rfl

theorem implies_ok (xs ys : List Bool) (h : xs.length = ys.length) :
    implies ⟨xs⟩ (.bitarr ys)
      = .ok ⟨List.zipWith (fun x y => !x || y) xs ys⟩ := by
  rw [implies, check_support_ok ⟨xs⟩ ys _ h]
  have h2 : (invert ⟨xs⟩).bits.length = ys.length := by
    simpa [invert] using h
  have : op_or (invert ⟨xs⟩) (.bitarr ys)
      = .ok ⟨List.zipWith (fun x y => x || y) (xs.map fun x => !x) ys⟩ :=
    op_or_ok (xs.map fun x => !x) ys (by simpa using h)
  rw [show (Except.ok () : Except PyErr Unit) >>= (fun _ => op_or (invert ⟨xs⟩) (.bitarr ys))
        = op_or (invert ⟨xs⟩) (.bitarr ys) from rfl]
  rw [this, List.zipWith_map_left]

theorem op_or_len_err (xs ys : List Bool) (h : xs.length ≠ ys.length) :
    op_or ⟨xs⟩ (.bitarr ys)
      = .error (.valueError "Operands of different lengths!") := by
  rw [op_or, check_support_len_err ⟨xs⟩ ys _ h]
  rfl

theorem op_and_len_err (xs ys : List Bool) (h : xs.length ≠ ys.length) :
    op_and ⟨xs⟩ (.bitarr ys)
      = .error (.valueError "Operands of different lengths!") := by
  rw [op_and, check_support_len_err ⟨xs⟩ ys _ h]
  rfl

theorem equals_len_err (xs ys : List Bool) (h : xs.length ≠ ys.length) :
    equals ⟨xs⟩ (.bitarr ys)
      = .error (.valueError "Operands of different lengths!") := by
  rw [equals, check_support_len_err ⟨xs⟩ ys _ h]
  rfl

theorem implies_len_err (xs ys : List Bool) (h : xs.length ≠ ys.length) :
    implies ⟨xs⟩ (.bitarr ys)
      = .error (.valueError "Operands of different lengths!") := by
  rw [implies, check_support_len_err ⟨xs⟩ ys _ h]
  rfl

theorem takeWhile_head_not_tilde (l : List Char) :
    (l.takeWhile isBitChar).head? ≠ some '~' := by
  cases hl : l.takeWhile isBitChar with
  | nil => simp
  | cons x xs =>
    have hx : isBitChar x = true :=
      List.mem_takeWhile_imp (p := isBitChar) (l := l)
        (by rw [hl]; exact List.mem_cons_self x xs)
    simp [bit_ne hx (show isBitChar '~' = false by decide)]

theorem to_bitarray_splitX (s : List Char) :
    ∃ x, to_bitarray ((splitX s).1) = .ok x := by
  by_cases hh : s.head? = some '~'
  · rw [splitX, if_pos hh]
    refine ⟨invert ⟨(s.tail.takeWhile isBitChar).map charBit⟩, ?_⟩
    rw [to_bitarray]
    rw [if_pos (by simp)]
    simp only [List.tail_cons]
    rw [init_str_ok _ List.all_takeWhile]
    rfl
  · rw [splitX, if_neg hh]
    refine ⟨⟨(s.takeWhile isBitChar).map charBit⟩, ?_⟩
    rw [to_bitarray]
    rw [if_neg (takeWhile_head_not_tilde s)]
    exact init_str_ok _ List.all_takeWhile

theorem to_bitarray_operandOk (yb : List Char) (h : operandOk yb = true) :
    ∃ y, to_bitarray yb = .ok y := by
  rw [operandOk] at h
  by_cases hc : yb.head? = some '~'
  · rw [if_pos hc] at h
    refine ⟨invert ⟨yb.tail.map charBit⟩, ?_⟩
    rw [to_bitarray, if_pos hc, init_str_ok _ h]
    rfl
  · rw [if_neg hc] at h
    exact ⟨_, by rw [to_bitarray, if_neg hc]; exact init_str_ok _ h⟩

theorem matchExpr_inv {s xb yb : List Char} {op : Op}
    (h : matchExpr s = some (xb, op, yb)) :
    xb = (splitX s).1 ∧ operandOk yb = true := by
  unfold matchExpr at h
  split at h
  · rename_i op2 r heq
    split at h
    · rename_i hok
      injection h with h1
      obtain ⟨e1, e2, e3⟩ : (splitX s).1 = xb ∧ op2 = op ∧ r = yb := by
        simpa using h1
      exact ⟨e1.symm, e3 ▸ hok⟩
    · exact absurd h (by simp)
  · exact absurd h (by simp)

theorem filter_space_of_all (l : List Char) (h : ∀ c ∈ l, c ≠ ' ') :
    l.filter (fun c => c != ' ') = l :=
  List.filter_eq_self.mpr (fun c hc => bne_iff_ne.mpr (h c hc))

theorem execute_str_eq (s : List Char) (hne : s.isEmpty = false) :
    execute (.str s)
      = (match matchExpr (s.filter fun c => c != ' ') with
        | Option.none => .ok Option.none
        | some (xb, op, yb) => do
            let x ← to_bitarray xb
            let y ← to_bitarray yb
            if x.bits.length != y.bits.length then
              .ok Option.none
            else
              match op with
              | .opAnd => (op_and x (.bitarr y.bits)).map some
              | .opOr => (op_or x (.bitarr y.bits)).map some
              | .opImpl => (implies x (.bitarr y.bits)).map some
              | .opEquiv => (equals x (.bitarr y.bits)).map some) := by
  simp only [execute, hne, Bool.false_eq_true, if_false]

theorem except_bind_ok {e a b : Type} (x : a) (f : a → Except e b) :
    (Except.ok x >>= f) = f x := rfl

theorem execute_of_match (s : List Char) (hne : s.isEmpty = false)
    {xb yb : List Char} {op : Op}
    (hm : matchExpr (s.filter fun c => c != ' ') = some (xb, op, yb))
    {x y : BitArray} (hx : to_bitarray xb = .ok x) (hy : to_bitarray yb = .ok y)
    (hlen : x.bits.length = y.bits.length) :
    execute (.str s) = (match op with
      | .opAnd => (op_and x (.bitarr y.bits)).map some
      | .opOr => (op_or x (.bitarr y.bits)).map some
      | .opImpl => (implies x (.bitarr y.bits)).map some
      | .opEquiv => (equals x (.bitarr y.bits)).map some) := by
  rw [execute_str_eq s hne]
  simp only [hm, hx, hy, except_bind_ok]
  simp only [hlen, bne_self_eq_false, Bool.false_eq_true, if_false]
  cases op <;> rfl

theorem execute_of_match_ne (s : List Char) (hne : s.isEmpty = false)
    {xb yb : List Char} {op : Op}
    (hm : matchExpr (s.filter fun c => c != ' ') = some (xb, op, yb))
    {x y : BitArray} (hx : to_bitarray xb = .ok x) (hy : to_bitarray yb = .ok y)
    (hlen : x.bits.length ≠ y.bits.length) :
    execute (.str s) = .ok Option.none := by
  rw [execute_str_eq s hne]
  have hb : (x.bits.length != y.bits.length) = true := bne_iff_ne.mpr hlen
  simp only [hm, hx, hy, except_bind_ok, hb, if_true]

theorem execute_of_no_match (s : List Char) (hne : s.isEmpty = false)
    (hm : matchExpr (s.filter fun c => c != ' ') = Option.none) :
    execute (.str s) = .ok Option.none := by
  rw [execute_str_eq s hne]
  simp only [hm]

theorem implies_eq_or_invert (x : BitArray) (ys : List Bool)
    (h : x.bits.length = ys.length) :
    implies x (.bitarr ys) = op_or (invert x) (.bitarr ys) := by
  rw [implies, check_support_ok x ys _ h]
  rfl

theorem bits_no_space {l : List Char} (hl : l.all isBitChar = true) :
    ∀ c ∈ l, c ≠ ' ' := fun c hc =>
  bit_ne (List.all_eq_true.mp hl c hc) (show isBitChar ' ' = false by decide)

/-! ### Claim theorems -/

/-- C1: for equal-length bit literals `a`, `b`, `execute "a -> b"` is
`(not (construct a)).or (construct b)`, and `execute "~a -> b"` is
`(construct a).or (construct b)` — the operand's own negation and the
negation inside `implies` cancel. -/
theorem execute_implication_dispatch (a b : List Char)
    (ha : a.all isBitChar = true) (hb : b.all isBitChar = true)
    (hlen : a.length = b.length) :
    ∃ x y, init (.str a) = .ok x ∧ init (.str b) = .ok y ∧
      execute (.str (a ++ '-' :: '>' :: b))
        = (op_or (invert x) (.bitarr y.bits)).map some ∧
      execute (.str ('~' :: (a ++ '-' :: '>' :: b)))
        = (op_or x (.bitarr y.bits)).map some := by
  refine ⟨⟨a.map charBit⟩, ⟨b.map charBit⟩, init_str_ok a ha, init_str_ok b hb, ?_, ?_⟩
  · have hne : (a ++ '-' :: '>' :: b).isEmpty = false :=
      List.isEmpty_eq_false.mpr (by simp)
    have hfil : (a ++ '-' :: '>' :: b).filter (fun c => c != ' ')
        = a ++ '-' :: '>' :: b := by
      refine filter_space_of_all _ (fun c hc => ?_)
      rcases List.mem_append.mp hc with h | h
      · exact bits_no_space ha c h
      · rcases h with _ | ⟨_, _ | ⟨_, h⟩⟩
        · decide
        · decide
        · exact bits_no_space hb c h
    have hm := matchExpr_mk false false a b .opImpl ha hb
    simp only [cond, List.nil_append, Op.chars, List.cons_append] at hm
    have hx := to_bitarray_op false a ha
    have hy := to_bitarray_op false b hb
    simp only [cond, List.nil_append] at hx hy
    have hl2 : (BitArray.mk (a.map charBit)).bits.length
        = (BitArray.mk (b.map charBit)).bits.length := by
      simp [hlen]
    rw [execute_of_match _ hne (by rw [hfil]; exact hm) hx hy hl2]
    show (implies _ _).map some = _
    rw [implies_eq_or_invert _ _ hl2]
  · have hne : ('~' :: (a ++ '-' :: '>' :: b)).isEmpty = false :=
      List.isEmpty_eq_false.mpr (by simp)
    have hfil : ('~' :: (a ++ '-' :: '>' :: b)).filter (fun c => c != ' ')
        = '~' :: (a ++ '-' :: '>' :: b) := by
      refine filter_space_of_all _ (fun c hc => ?_)
      rcases hc with _ | ⟨_, hc⟩
      · decide
      · rcases List.mem_append.mp hc with h | h
        · exact bits_no_space ha c h
        · rcases h with _ | ⟨_, _ | ⟨_, h⟩⟩
          · decide
          · decide
          · exact bits_no_space hb c h
    have hm := matchExpr_mk true false a b .opImpl ha hb
    simp only [cond, List.nil_append, Op.chars, List.cons_append,
      List.singleton_append] at hm
    have hx := to_bitarray_op true a ha
    have hy := to_bitarray_op false b hb
    simp only [cond, List.nil_append, List.singleton_append] at hx hy
    have hl2 : (invert ⟨a.map charBit⟩).bits.length
        = (BitArray.mk (b.map charBit)).bits.length := by
      simp [invert, hlen]
    rw [execute_of_match _ hne (by rw [hfil]; exact hm) hx hy hl2]
    show (implies _ _).map some = _
    rw [implies_eq_or_invert _ _ hl2, invert_invert]

/-- C1 witness at a = "10", b = "01". -/
theorem execute_implication_dispatch_witness :
    (['1', '0'] : List Char).all isBitChar = true ∧
    (['0', '1'] : List Char).all isBitChar = true ∧
    (['1', '0'] : List Char).length = (['0', '1'] : List Char).length ∧
    (∃ x y, init (.str ['1', '0']) = .ok x ∧ init (.str ['0', '1']) = .ok y ∧
      execute (.str (['1', '0'] ++ '-' :: '>' :: ['0', '1']))
        = (op_or (invert x) (.bitarr y.bits)).map some ∧
      execute (.str ('~' :: (['1', '0'] ++ '-' :: '>' :: ['0', '1'])))
        = (op_or x (.bitarr y.bits)).map some) :=
  ⟨by decide, by decide, by decide,
    execute_implication_dispatch ['1', '0'] ['0', '1']
      (by decide) (by decide) (by decide)⟩

/-- C2: the evaluator is total — on every modelled Python value it
returns `.ok` (a BitArray or None), never an exception of any kind. -/
theorem execute_total (v : PyVal) : ∃ r, execute v = .ok r := by
  cases v with
  | str s =>
    by_cases he : s.isEmpty = true
    · exact ⟨Option.none, by simp only [execute, he, if_true]⟩
    · have hne : s.isEmpty = false := by simpa using he
      cases hm : matchExpr (s.filter fun c => c != ' ') with
      | none => exact ⟨Option.none, execute_of_no_match s hne hm⟩
      | some g =>
        obtain ⟨xb, op, yb⟩ := g
        obtain ⟨hxb, hyok⟩ := matchExpr_inv hm
        obtain ⟨x, hx⟩ : ∃ x, to_bitarray xb = .ok x := hxb ▸ to_bitarray_splitX _
        obtain ⟨y, hy⟩ := to_bitarray_operandOk yb hyok
        by_cases hlen : x.bits.length = y.bits.length
        · cases op
          · refine ⟨some ⟨List.zipWith (fun p q => p && q) x.bits y.bits⟩, ?_⟩
            rw [execute_of_match s hne hm hx hy hlen]
            show (op_and x (.bitarr y.bits)).map some = _
            rw [op_and_ok x.bits y.bits hlen]
            rfl
          · refine ⟨some ⟨List.zipWith (fun p q => p || q) x.bits y.bits⟩, ?_⟩
            rw [execute_of_match s hne hm hx hy hlen]
            show (op_or x (.bitarr y.bits)).map some = _
            rw [op_or_ok x.bits y.bits hlen]
            rfl
          · refine ⟨some ⟨List.zipWith (fun p q => !p || q) x.bits y.bits⟩, ?_⟩
            rw [execute_of_match s hne hm hx hy hlen]
            show (implies x (.bitarr y.bits)).map some = _
            rw [implies_ok x.bits y.bits hlen]
            rfl
          · refine ⟨some ⟨List.zipWith (fun p q => p == q) x.bits y.bits⟩, ?_⟩
            rw [execute_of_match s hne hm hx hy hlen]
            show (equals x (.bitarr y.bits)).map some = _
            rw [equals_ok x.bits y.bits hlen]
            rfl
        · exact ⟨Option.none, execute_of_match_ne s hne hm hx hy hlen⟩
  | list l => exact ⟨Option.none, rfl⟩
  | int n => exact ⟨Option.none, rfl⟩
  | bool b => exact ⟨Option.none, rfl⟩
  | none => exact ⟨Option.none, rfl⟩
  | dict entries => exact ⟨Option.none, rfl⟩
  | bitarr bs => exact ⟨Option.none, rfl⟩

/-- C3 counterexample: a tab is whitespace but is not removed by
execute (which replaces only ' '), so a tab inside an otherwise
well-formed expression changes the result. -/
theorem execute_whitespace_counterexample :
    execute (.str ['1', '\t', '&', '1']) = .ok Option.none ∧
    execute (.str (removeAllWhitespace ['1', '\t', '&', '1']))
      = .ok (some ⟨[true]⟩) ∧
    execute (.str ['1', '\t', '&', '1'])
      ≠ execute (.str (removeAllWhitespace ['1', '\t', '&', '1'])) := by
  refine ⟨rfl, rfl, ?_⟩
  intro h
  rw [show execute (.str ['1', '\t', '&', '1']) = .ok Option.none from rfl,
    show execute (.str (removeAllWhitespace ['1', '\t', '&', '1']))
      = .ok (some ⟨[true]⟩) from rfl] at h
  simp at h

/-- C3 amended: the evaluator is insensitive exactly to the removal of
space characters (' '): evaluating t equals evaluating t with all
spaces removed; other whitespace is not stripped. -/
theorem execute_space_insensitive (t : List Char) :
    execute (.str t) = execute (.str (t.filter fun c => c != ' ')) := by
  by_cases ht : t.isEmpty = true
  · have : t = [] := List.isEmpty_iff.mp ht
    subst this
    rfl
  · have hne : t.isEmpty = false := by simpa using ht
    by_cases hf : (t.filter fun c => c != ' ') = []
    · rw [execute_str_eq t hne, hf]
      rfl
    · have hne2 : (t.filter fun c => c != ' ').isEmpty = false :=
        List.isEmpty_eq_false.mpr hf
      rw [execute_str_eq t hne, execute_str_eq _ hne2, List.filter_filter]
      simp only [Bool.and_self]

/-- C4 counterexample: append changes the receiver's state — after
`x = BitArray("1011"); x.append("1100")` the receiver no longer holds
the bits it was constructed with. -/
theorem append_mutates_counterexample :
    append ⟨[true, false, true, true]⟩ (.str ['1', '1', '0', '0'])
      = .ok ⟨[true, false, true, true, true, true, false, false]⟩ ∧
    (⟨[true, false, true, true]⟩ : BitArray)
      ≠ ⟨[true, false, true, true, true, true, false, false]⟩ :=
  ⟨rfl, by decide⟩

/-- C4 amended: every public operation except append returns a new
instance; append mutates the receiver, whose post-state bits are the
prior bits extended by the parsed new bits (so its length grows by the
parsed length rather than staying fixed). -/
theorem append_extends_receiver (a : BitArray) (v : PyVal) (bs : List Bool)
    (h : try_parse v = .ok bs) :
    ∃ a2, append a v = .ok a2 ∧ a2.bits = a.bits ++ bs ∧
      a2.bits.length = a.bits.length + bs.length :=
  ⟨⟨a.bits ++ bs⟩, by rw [append, h]; rfl, rfl, by simp⟩

/-- C4 amended witness at a = BitArray("0"), appending "1". -/
theorem append_extends_receiver_witness :
    try_parse (.str ['1']) = .ok [true] ∧
    ∃ a2, append ⟨[false]⟩ (.str ['1']) = .ok a2 ∧
      a2.bits = [false] ++ [true] ∧
      a2.bits.length = [false].length + [true].length :=
  ⟨rfl, append_extends_receiver ⟨[false]⟩ (.str ['1']) [true] rfl⟩

/-- C5 counterexample: falsy sources of unaccepted types (the integer
0, False, an empty dict) do not fail with UnsupportedType — they
produce an empty BitArray. -/
theorem construct_falsy_counterexample :
    init (.int 0) = .ok ⟨[]⟩ ∧ init (.bool false) = .ok ⟨[]⟩ ∧
    init (.dict []) = .ok ⟨[]⟩ :=
  ⟨rfl, rfl, rfl⟩

/-- C5 amended: a truthy source of an unaccepted type fails with
UnsupportedType (TypeError); a falsy source of any type yields the
empty BitArray without error. -/
theorem construct_unsupported_amended (v : PyVal) :
    (v.py_bool = true → v.isStr = false → v.isList = false →
      init v = .error (.typeError "Expected one of these types (list, str)")) ∧
    (v.py_bool = false → init v = .ok ⟨[]⟩) := by
  constructor
  · intro ht hs hl
    cases v with
    | str s => exact absurd hs (by simp [PyVal.isStr])
    | list l => exact absurd hl (by simp [PyVal.isList])
    | int n => rw [init, if_pos ht]; rfl
    | bool b => rw [init, if_pos ht]; rfl
    | none => rw [init, if_pos ht]; rfl
    | dict entries => rw [init, if_pos ht]; rfl
    | bitarr bs => rw [init, if_pos ht]; rfl
  · intro hf
    rw [init, if_neg (by simp [hf])]

/-- C5 amended witness at the truthy unaccepted value 5 and the falsy
value 0. -/
theorem construct_unsupported_amended_witness :
    init (.int 5) = .error (.typeError "Expected one of these types (list, str)") ∧
    init (.int 0) = .ok ⟨[]⟩ :=
  ⟨(construct_unsupported_amended (.int 5)).1 rfl rfl rfl,
    (construct_unsupported_amended (.int 0)).2 rfl⟩

/-- C6 counterexample: the mixed list [True, False, 1] is accepted and
converted, not rejected with InvalidElement (the repository's own test
test_init asserts exactly this behaviour). -/
theorem parse_list_mixed_counterexample :
    init (.list [.bool true, .bool false, .int 1])
      = .ok ⟨[true, false, true]⟩ := rfl

/-- C6 amended: a sequence may freely mix booleans and 0/1 integers —
each element is converted by truthiness; InvalidElement (ValueError) is
raised only when some element is neither a boolean nor an integer 0/1. -/
theorem parse_list_mixed_amended (l : List PyVal) :
    (l.all (fun bit => is_bool bit || is_int_0_or_1 bit) = true →
      init (.list l) = .ok ⟨l.map PyVal.py_bool⟩) ∧
    (l.all (fun bit => is_bool bit || is_int_0_or_1 bit) = false →
      init (.list l) = .error
        (.valueError "The list must contain digits: 0, 1 or boolean values: False, True")) := by
  constructor
  · intro h
    cases l with
    | nil => rfl
    | cons p ps =>
      rw [init, if_pos (by simp [PyVal.py_bool])]
      show (parse_list (p :: ps)).map (fun bs => (⟨bs⟩ : BitArray)) = _
      rw [parse_list, if_pos h]
      rfl
  · intro h
    cases l with
    | nil => simp at h
    | cons p ps =>
      rw [init, if_pos (by simp [PyVal.py_bool])]
      show (parse_list (p :: ps)).map (fun bs => (⟨bs⟩ : BitArray)) = _
      rw [parse_list, if_neg (by simp [h])]
      rfl

/-- C6 amended witness at the mixed list [True, False, 1] and the bad
list [2]. -/
theorem parse_list_mixed_amended_witness :
    init (.list [.bool true, .bool false, .int 1])
      = .ok ⟨[PyVal.bool true, PyVal.bool false, PyVal.int 1].map PyVal.py_bool⟩ ∧
    init (.list [.int 2]) = .error
      (.valueError "The list must contain digits: 0, 1 or boolean values: False, True") :=
  ⟨(parse_list_mixed_amended [.bool true, .bool false, .int 1]).1 rfl,
    (parse_list_mixed_amended [.int 2]).2 rfl⟩

theorem char01_render {c : Char} (h : is_char_0_or_1 c = true) :
    (if charBit c then '1' else '0') = c := by
  rcases (show c = '0' ∨ c = '1' by simpa [is_char_0_or_1] using h) with rfl | rfl
  · rfl
  · rfl

theorem render_map_charBit (s : List Char) (h : s.all is_char_0_or_1 = true) :
    render ⟨s.map charBit⟩ = s := by
  induction s with
  | nil => rfl
  | cons c cs ih =>
    rw [List.all_cons, Bool.and_eq_true] at h
    show (if charBit c then '1' else '0') :: render ⟨cs.map charBit⟩ = c :: cs
    rw [char01_render h.1, ih h.2]

/-- C7: construction from a 0/1 string renders back to exactly that
string, and every render consists of '0'/'1' characters, one per
element, in index order. -/
theorem render_roundtrip (s : List Char) (h : s.all is_char_0_or_1 = true) :
    (∃ a, init (.str s) = .ok a ∧ render a = s) ∧
    (∀ a : BitArray, (render a).all is_char_0_or_1 = true ∧
      (render a).length = a.bits.length ∧
      ∀ i : Nat, (render a)[i]?
        = (a.bits[i]?).map fun b => if b then '1' else '0') := by
  constructor
  · exact ⟨⟨s.map charBit⟩, init_str_ok s h, render_map_charBit s h⟩
  · intro a
    refine ⟨?_, by simp [render], fun i => ?_⟩
    · refine List.all_eq_true.mpr (fun c hc => ?_)
      rw [render] at hc
      obtain ⟨b, _, rfl⟩ := List.mem_map.mp hc
      cases b
      · decide
      · decide
    · rw [render, List.getElem?_map]

/-- C7 witness at s = "101". -/
theorem render_roundtrip_witness :
    (['1', '0', '1'] : List Char).all is_char_0_or_1 = true ∧
    ((∃ a, init (.str ['1', '0', '1']) = .ok a ∧ render a = ['1', '0', '1']) ∧
      (∀ a : BitArray, (render a).all is_char_0_or_1 = true ∧
        (render a).length = a.bits.length ∧
        ∀ i : Nat, (render a)[i]?
          = (a.bits[i]?).map fun b => if b then '1' else '0')) :=
  ⟨by decide, render_roundtrip ['1', '0', '1'] (by decide)⟩

/-- C8: on BitArrays of differing lengths, and/or/implies/equivalence
all fail with LengthMismatch (ValueError), while structural equality
(__eq__) is total: false on a length mismatch and false on any
non-BitArray argument. -/
theorem length_mismatch_behaviour (xs ys : List Bool) (v : PyVal)
    (hlen : xs.length ≠ ys.length) (hv : v.isBitArr = false) :
    op_and ⟨xs⟩ (.bitarr ys) = .error (.valueError "Operands of different lengths!") ∧
    op_or ⟨xs⟩ (.bitarr ys) = .error (.valueError "Operands of different lengths!") ∧
    implies ⟨xs⟩ (.bitarr ys) = .error (.valueError "Operands of different lengths!") ∧
    equals ⟨xs⟩ (.bitarr ys) = .error (.valueError "Operands of different lengths!") ∧
    py_eq ⟨xs⟩ (.bitarr ys) = false ∧
    py_eq ⟨xs⟩ v = false := by
  have hb : (xs.length != ys.length) = true := bne_iff_ne.mpr hlen
  refine ⟨op_and_len_err xs ys hlen, op_or_len_err xs ys hlen,
    implies_len_err xs ys hlen, equals_len_err xs ys hlen, ?_, ?_⟩
  · simp [py_eq, hb]
  · cases v with
    | bitarr bs => exact absurd hv (by simp [PyVal.isBitArr])
    | str s => rfl
    | list l => rfl
    | int n => rfl
    | bool b => rfl
    | none => rfl
    | dict entries => rfl

/-- C8 witness at xs = [true], ys = [], v = None. -/
theorem length_mismatch_behaviour_witness :
    ([true] : List Bool).length ≠ ([] : List Bool).length ∧
    (PyVal.none).isBitArr = false ∧
    (op_and ⟨[true]⟩ (.bitarr []) = .error (.valueError "Operands of different lengths!") ∧
      op_or ⟨[true]⟩ (.bitarr []) = .error (.valueError "Operands of different lengths!") ∧
      implies ⟨[true]⟩ (.bitarr []) = .error (.valueError "Operands of different lengths!") ∧
      equals ⟨[true]⟩ (.bitarr []) = .error (.valueError "Operands of different lengths!") ∧
      py_eq ⟨[true]⟩ (.bitarr []) = false ∧
      py_eq ⟨[true]⟩ PyVal.none = false) :=
  ⟨by decide, rfl, length_mismatch_behaviour [true] [] .none (by decide) rfl⟩

theorem matchExpr_ws_none (l : List Char)
    (h : ∀ c ∈ l, c = '\t' ∨ c = '\r' ∨ c = '\n') :
    matchExpr l = Option.none := by
  cases l with
  | nil => rfl
  | cons c cs =>
    rcases h c (List.mem_cons_self c cs) with rfl | rfl | rfl
    · rfl
    · rfl
    · rfl

/-- C9 counterexample: the input "\t&" consists of just the operator
'&' after whitespace removal (and that stripped form does evaluate to
the zero-length BitArray), yet execute on the input itself returns
None: the code strips only spaces, and the tab blocks the grammar. -/
theorem empty_literals_whitespace_counterexample :
    removeAllWhitespace ['\t', '&'] = ['&'] ∧
    execute (.str (removeAllWhitespace ['\t', '&'])) = .ok (some ⟨[]⟩) ∧
    execute (.str ['\t', '&']) = .ok Option.none ∧
    execute (.str ['\t', '&']) ≠ .ok (some ⟨[]⟩) := by
  refine ⟨rfl, rfl, rfl, ?_⟩
  intro h
  rw [show execute (.str ['\t', '&']) = .ok Option.none from rfl] at h
  simp at h

/-- C9 (amended): every textual input whose space-stripped form is
just an operator with empty (possibly '~'-prefixed) bit literals on
both sides — e.g. "&", "~=~", or " ~ & ~" — evaluates to the
zero-length BitArray, not None; every input that is empty after
removal of all whitespace, and every non-string input, gives None. -/
theorem empty_literals_accepted (op : Op) (n1 n2 : Bool) (t w : List Char)
    (v : PyVal)
    (hfil : t.filter (fun c => c != ' ')
      = (cond n1 ['~'] []) ++ op.chars ++ (cond n2 ['~'] []))
    (hw : removeAllWhitespace w = [])
    (hv : v.isStr = false) :
    execute (.str t) = .ok (some ⟨[]⟩) ∧
    execute (.str w) = .ok Option.none ∧
    execute v = .ok Option.none := by
  refine ⟨?_, ?_, ?_⟩
  · have hne : t.isEmpty = false := by
      refine List.isEmpty_eq_false.mpr (fun h0 => ?_)
      subst h0
      rw [List.filter_nil] at hfil
      cases op <;> cases n1 <;> cases n2 <;> simp [Op.chars] at hfil
    rw [execute_str_eq t hne, hfil]
    cases op <;> cases n1 <;> cases n2 <;> rfl
  · by_cases hwe : w.isEmpty = true
    · have h0 : w = [] := List.isEmpty_iff.mp hwe
      subst h0
      rfl
    · have hne : w.isEmpty = false := by simpa using hwe
      refine execute_of_no_match w hne (matchExpr_ws_none _ (fun c hc => ?_))
      rw [List.mem_filter] at hc
      have h1 : c.isWhitespace = true := by
        have := List.filter_eq_nil_iff.mp hw c hc.1
        simpa [removeAllWhitespace] using this
      have h2 : c ≠ ' ' := bne_iff_ne.mp hc.2
      rcases (show ((c = ' ' ∨ c = '\t') ∨ c = '\r') ∨ c = '\n' by
          simpa [Char.isWhitespace] using h1) with ((rfl | rfl) | rfl) | rfl
      · exact absurd rfl h2
      · exact Or.inl rfl
      · exact Or.inr (Or.inl rfl)
      · exact Or.inr (Or.inr rfl)
  · cases v with
    | str s => exact absurd hv (by simp [PyVal.isStr])
    | list l => rfl
    | int n => rfl
    | bool b => rfl
    | none => rfl
    | dict entries => rfl
    | bitarr bs => rfl

/-- C9 amended witness at t = " ~ & ~", w = "\t", v = None. -/
theorem empty_literals_accepted_witness :
    ([' ', '~', ' ', '&', ' ', '~'].filter (fun c => c != ' ')
      = (cond true ['~'] []) ++ Op.opAnd.chars ++ (cond true ['~'] [])) ∧
    removeAllWhitespace ['\t'] = [] ∧
    (PyVal.none).isStr = false ∧
    (execute (.str [' ', '~', ' ', '&', ' ', '~']) = .ok (some ⟨[]⟩) ∧
      execute (.str ['\t']) = .ok Option.none ∧
      execute PyVal.none = .ok Option.none) :=
  ⟨rfl, rfl, rfl,
    empty_literals_accepted .opAnd true true [' ', '~', ' ', '&', ' ', '~']
      ['\t'] .none rfl rfl rfl⟩

/-- C10: on equal-length operands, and/or/implies/equivalence succeed
and their result has exactly the common operand length. -/
theorem binop_length_preserved (xs ys : List Bool) (h : xs.length = ys.length) :
    (∃ r, op_and ⟨xs⟩ (.bitarr ys) = .ok r ∧ r.bits.length = xs.length) ∧
    (∃ r, op_or ⟨xs⟩ (.bitarr ys) = .ok r ∧ r.bits.length = xs.length) ∧
    (∃ r, implies ⟨xs⟩ (.bitarr ys) = .ok r ∧ r.bits.length = xs.length) ∧
    (∃ r, equals ⟨xs⟩ (.bitarr ys) = .ok r ∧ r.bits.length = xs.length) := by
  refine ⟨⟨_, op_and_ok xs ys h, ?_⟩, ⟨_, op_or_ok xs ys h, ?_⟩,
    ⟨_, implies_ok xs ys h, ?_⟩, ⟨_, equals_ok xs ys h, ?_⟩⟩ <;>
    simp [List.length_zipWith, h]

/-- C10 witness at xs = [true, false], ys = [false, false]. -/
theorem binop_length_preserved_witness :
    ([true, false] : List Bool).length = ([false, false] : List Bool).length ∧
    ((∃ r, op_and ⟨[true, false]⟩ (.bitarr [false, false]) = .ok r ∧
        r.bits.length = ([true, false] : List Bool).length) ∧
      (∃ r, op_or ⟨[true, false]⟩ (.bitarr [false, false]) = .ok r ∧
        r.bits.length = ([true, false] : List Bool).length) ∧
      (∃ r, implies ⟨[true, false]⟩ (.bitarr [false, false]) = .ok r ∧
        r.bits.length = ([true, false] : List Bool).length) ∧
      (∃ r, equals ⟨[true, false]⟩ (.bitarr [false, false]) = .ok r ∧
        r.bits.length = ([true, false] : List Bool).length)) :=
  ⟨rfl, binop_length_preserved [true, false] [false, false] rfl⟩

end BitArray
